import Mathlib

/-!
Verification of the correlation and metadata subsystem of the axon-rs
library: a shallow embedding of `Entity`, `MetaData`, `Payload`,
`EventMessage` and the correlation providers, with theorems settling the
behavioural claims about them.

Randomness (the 128 random bits drawn by `Uuid::new_v4`) is made an explicit
`Nat` argument of every operation that generates a fresh identifier, so all
definitions are pure and executable.

The files `ddd/metadata.rs`, `message/base.rs` and the three provider
implementations under `correlation/` are absent from the available sources;
the corresponding definitions are modelled from the specification text and
are marked as such in their doc comments. Everything else is translated
directly from the Rust sources.
-/

set_option autoImplicit false

namespace Axon

/-- Structured value, the shallow embedding of `serde_json::Value`; numbers
are modelled as integers, which is enough for every claim (none inspects a
numeric payload). -/
inductive Value where
  | null : Value
  | bool : Bool → Value
  | num : Int → Value
  | str : String → Value
  | arr : List Value → Value
  | obj : List (String × Value) → Value

/-- Constant from `ddd/constant.rs`: key for an event name. -/
def EVENT_NAME_KEY : String := "axon:event:name"

/-- Constant from `ddd/constant.rs`: key for an `Entity` struct. -/
def ENTITY_KEY : String := "axon:entity"

/-- Constant from `ddd/constant.rs`: key for the unique id of an `Entity`. -/
def ENTITY_ID_KEY : String := "axon:entity:id"

/-- Constant from `ddd/constant.rs`: key for the name of an `Entity`. -/
def ENTITY_NAME_KEY : String := "axon:entity:name"

/-- Constant from `ddd/constant.rs`: key for the correlation id. -/
def CORRELATION_ID_KEY : String := "axon:correlation:id"

/-- Constant from `ddd/constant.rs`: key for the trace id. -/
def TRACE_ID_KEY : String := "axon:trace:id"

/-- Constant from `ddd/constant.rs`: name of an anonymous `Entity`. -/
def ENTITY_ANONYMOUS : String := "axon:event:name/anonymous"

/-- Lowercase hexadecimal digit character for a value below 16, as rendered
by the uuid crate (codepoint 48 is the digit zero, 97 is the letter a). -/
def hexChar (n : Nat) : Char :=
  if n < 10 then Char.ofNat (48 + n) else Char.ofNat (87 + n)

/-- Numeric value of a lowercase hexadecimal digit character, the left
inverse of `hexChar` on values below 16. -/
def hexVal (c : Char) : Nat :=
  if c.toNat ≥ 97 then c.toNat - 87 else c.toNat - 48

/-- Fixed-width base-16 rendering of a natural number, most significant
digit first. -/
def toHexW : Nat → Nat → List Char
  | 0, _ => []
  | w + 1, n => toHexW w (n / 16) ++ [hexChar (n % 16)]

/-- Numeric value of a most-significant-first digit list, Horner style. -/
def ofHexDigits (l : List Char) : Nat :=
  l.foldl (fun acc c => acc * 16 + hexVal c) 0

/-- Modelled from the spec: the canonical textual rendering of a 128-bit
identifier produced by the external uuid crate (absent from the sources) —
32 lowercase hexadecimal digits split by hyphens into groups of 8, 4, 4, 4
and 12 digits. -/
def uuidChars (n : Nat) : List Char :=
  let d := toHexW 32 (n % 16 ^ 32)
  d.take 8 ++ '-' ::
    ((d.drop 8).take 4 ++ '-' ::
      (((d.drop 8).drop 4).take 4 ++ '-' ::
        ((((d.drop 8).drop 4).drop 4).take 4 ++ '-' ::
          (((d.drop 8).drop 4).drop 4).drop 4)))

/-- Modelled from the spec: `Uuid::new_v4().to_string()` with the 128 random
bits given as the explicit argument `n`. -/
def uuidString (n : Nat) : String := String.mk (uuidChars n)

/-- Domain entity from `ddd/entity.rs`: a unique identifier paired with a
name. -/
structure Entity where
  id : String
  name : String
deriving DecidableEq, Repr

/-- `Entity::new` from `ddd/entity.rs`: caller-supplied id and name, no
validation. -/
def Entity.new (id name : String) : Entity := ⟨id, name⟩

/-- `Entity::from_name` from `ddd/entity.rs`: the id is a freshly generated
uuid rendered as a string, the name is the given one; `r` is the randomness
drawn by `Uuid::new_v4`. -/
def Entity.from_name (r : Nat) (name : String) : Entity :=
  ⟨uuidString r, name⟩

/-- `From<String> for Entity` from `ddd/entity.rs` lines 122-126: delegates
to `Entity::from_name`, so the given string becomes the name and the id is a
fresh uuid. -/
def Entity.fromString (r : Nat) (value : String) : Entity :=
  Entity.from_name r value

/-- `Display for Entity` from `ddd/entity.rs` lines 128-132: the name,
a colon, then the id. -/
def Entity.display (e : Entity) : String := e.name ++ ":" ++ e.id

/-- Strict order on `Entity` as derived by `#[derive(Ord)]` on
`ddd/entity.rs` line 45: lexicographic in declaration order of the fields,
id first and name second. -/
def Entity.lt (a b : Entity) : Prop :=
  a.id < b.id ∨ (a.id = b.id ∧ a.name < b.name)

/-- Non-strict order on `Entity` corresponding to the derived `Ord`. -/
def Entity.le (a b : Entity) : Prop :=
  a.id < b.id ∨ (a.id = b.id ∧ a.name ≤ b.name)

instance (a b : Entity) : Decidable (Entity.lt a b) := by
  unfold Entity.lt; infer_instance

instance (a b : Entity) : Decidable (Entity.le a b) := by
  unfold Entity.le; infer_instance

/-- Modelled from the spec: `MetaData` (its file `ddd/metadata.rs` is absent
from the sources) is an ordered mapping from string keys to structured
values, keys unique, insertion order preserved. -/
structure MetaData where
  entries : List (String × Value)

/-- Modelled from the spec: `MetaData::new` constructs the empty map. -/
def MetaData.new : MetaData := ⟨[]⟩

/-- Overwrite the first entry holding the key, keeping its position, or
append the pair at the end; helper realising last-write-wins insertion. -/
def addEntry : List (String × Value) → String → Value → List (String × Value)
  | [], k, v => [(k, v)]
  | (k₀, v₀) :: rest, k, v =>
    if k₀ = k then (k, v) :: rest else (k₀, v₀) :: addEntry rest k v

/-- Modelled from the spec: `MetaData::add` inserts or overwrites a key;
total, no failure mode, accepts any structured value. -/
def MetaData.add (m : MetaData) (k : String) (v : Value) : MetaData :=
  ⟨addEntry m.entries k v⟩

/-- First-match lookup in an entry list. -/
def getEntry : List (String × Value) → String → Option Value
  | [], _ => none
  | (k₀, v₀) :: rest, k => if k₀ = k then some v₀ else getEntry rest k

/-- Lookup of a key in a `MetaData`. -/
def MetaData.get (m : MetaData) (k : String) : Option Value :=
  getEntry m.entries k

/-- Number of entries of a `MetaData` entry list holding the given key. -/
def countKey (l : List (String × Value)) (k : String) : Nat :=
  (l.filter (fun p => p.1 == k)).length

/-- Well-formedness of a `MetaData`: its keys are pairwise distinct, the
invariant stated by the spec for every `MetaData` the library hands out. -/
def keysNodup (m : MetaData) : Prop :=
  (m.entries.map Prod.fst).Nodup

instance (m : MetaData) : Decidable (keysNodup m) := by
  unfold keysNodup; infer_instance

/-- Modelled from the spec: `Entity::as_metadata` (declared in the absent
`ddd/metadata.rs`) produces a `MetaData` holding the entity id and name
under the well-known entity keys. -/
def Entity.as_metadata (e : Entity) : MetaData :=
  (MetaData.new.add ENTITY_ID_KEY (Value.str e.id)).add
    ENTITY_NAME_KEY (Value.str e.name)

/-- Modelled from the spec: the second derivation path on `Entity`, used by
the Origin provider when rooting a new causal chain, producing correlation
and trace keys from the entity; at the chain root the trace id is taken
equal to the correlation id (one of the two behaviours the spec leaves open;
no claim depends on the trace id). -/
def Entity.as_correlation_metadata (e : Entity) : MetaData :=
  (MetaData.new.add CORRELATION_ID_KEY (Value.str e.id)).add
    TRACE_ID_KEY (Value.str e.id)

/-- `Payload` from `message/payload.rs`: opaque wrapper around a structured
value. -/
structure Payload where
  inner : Value

/-- `Payload::new` from `message/payload.rs`. -/
def Payload.new (v : Value) : Payload := ⟨v⟩

/-- `Deref for Payload` from `message/payload.rs`: exposes the wrapped
value. -/
def Payload.deref (p : Payload) : Value := p.inner

/-- `EventMessage` from `message/generic.rs`: identifier, metadata and
payload. -/
structure EventMessage where
  identifier : Entity
  metadata : MetaData
  payload : Payload

/-- `EventMessage::new` from `message/generic.rs` lines 60-69: a fresh
`Entity` from the event name, metadata seeded from that entity via
`as_metadata`, and a `Payload` wrapping the given value; `r` is the
randomness drawn for the fresh uuid. -/
def EventMessage.new (r : Nat) (event_name : String) (payload : Value) :
    EventMessage :=
  let identifier := Entity.from_name r event_name
  ⟨identifier, identifier.as_metadata, Payload.new payload⟩

/-- `EventMessage::set_identifier` from `message/generic.rs` lines 71-74:
replaces the identifier field only. -/
def EventMessage.set_identifier (m : EventMessage) (identifier : Entity) :
    EventMessage :=
  { m with identifier := identifier }

/-- `EventMessage::add_meta` from `message/generic.rs` lines 76-79:
delegates to `MetaData::add` on the metadata field. -/
def EventMessage.add_meta (m : EventMessage) (k : String) (v : Value) :
    EventMessage :=
  { m with metadata := m.metadata.add k v }

/-- Modelled from the spec: the `MetaData` merge used by the Multi provider —
union of keys where the later map wins on collision, realised by folding
`add` of the later entries over the earlier map. -/
def MetaData.merge (m₁ m₂ : MetaData) : MetaData :=
  m₂.entries.foldl (fun acc p => acc.add p.1 p.2) m₁

/-- Modelled from the spec: `OriginCorrelationProvider::correlation_for`
(its file `correlation/origin.rs` is absent from the sources) — forwards
existing correlation and trace entries unchanged, and otherwise roots a new
causal chain from the message identity. -/
def originCorrelationFor (m : EventMessage) : MetaData :=
  match m.metadata.get CORRELATION_ID_KEY with
  | some c =>
    let base := MetaData.new.add CORRELATION_ID_KEY c
    match m.metadata.get TRACE_ID_KEY with
    | some t => base.add TRACE_ID_KEY t
    | none => base.add TRACE_ID_KEY c
  | none => m.identifier.as_correlation_metadata

/-- Modelled from the spec: `MultiCorrelationProvider::correlation_for`
(its file `correlation/multi.rs` is absent from the sources) — invokes the
configured providers in sequence order and merges their outputs left to
right, later providers overriding earlier ones. -/
def multiCorrelationFor (providers : List (EventMessage → MetaData))
    (m : EventMessage) : MetaData :=
  providers.foldl (fun acc p => acc.merge (p m)) MetaData.new

/-! Helper lemmas about entry lists. -/

theorem getEntry_addEntry (l : List (String × Value)) (k k₁ : String)
    (v : Value) :
    getEntry (addEntry l k v) k₁ = if k = k₁ then some v else getEntry l k₁ := by
  induction l with
  | nil => simp [addEntry, getEntry]
  | cons p rest ih =>
    obtain ⟨k₀, v₀⟩ := p
    by_cases h : k₀ = k
    · subst h
      simp only [addEntry, if_pos rfl, getEntry]
      by_cases hk : k₀ = k₁ <;> simp [hk]
    · simp only [addEntry, if_neg h, getEntry]
      rw [ih]
      by_cases h₁ : k₀ = k₁
      · have hkk : ¬ k = k₁ := fun hc => h (h₁.trans hc.symm)
        simp [h₁, hkk]
      · simp [h₁]

theorem getEntry_eq_none_of_not_mem (l : List (String × Value)) (k : String)
    (h : k ∉ l.map Prod.fst) : getEntry l k = none := by
  induction l with
  | nil => rfl
  | cons p rest ih =>
    obtain ⟨k₀, v₀⟩ := p
    simp only [List.map_cons, List.mem_cons] at h
    push_neg at h
    simp only [getEntry, if_neg (fun hc : k₀ = k => h.1 hc.symm)]
    exact ih h.2

theorem mem_keys_addEntry (l : List (String × Value)) (k a : String)
    (v : Value) (h : a ∈ (addEntry l k v).map Prod.fst) :
    a ∈ l.map Prod.fst ∨ a = k := by
  induction l with
  | nil =>
    simp only [addEntry, List.map_cons, List.map_nil, List.mem_singleton] at h
    exact Or.inr h
  | cons p rest ih =>
    obtain ⟨k₀, v₀⟩ := p
    by_cases hk : k₀ = k
    · simp only [addEntry, if_pos hk, List.map_cons, List.mem_cons] at h
      rcases h with h | h
      · exact Or.inr h
      · exact Or.inl (by simp [h])
    · simp only [addEntry, if_neg hk, List.map_cons, List.mem_cons] at h
      rcases h with h | h
      · exact Or.inl (by simp [h])
      · rcases ih h with h' | h'
        · exact Or.inl (by simp [h'])
        · exact Or.inr h'

theorem keysNodup_addEntry (l : List (String × Value)) (k : String)
    (v : Value) (h : (l.map Prod.fst).Nodup) :
    ((addEntry l k v).map Prod.fst).Nodup := by
  induction l with
  | nil => simp [addEntry]
  | cons p rest ih =>
    obtain ⟨k₀, v₀⟩ := p
    simp only [List.map_cons, List.nodup_cons] at h
    by_cases hk : k₀ = k
    · simp only [addEntry, if_pos hk, List.map_cons, List.nodup_cons]
      rw [← hk]
      exact h
    · simp only [addEntry, if_neg hk, List.map_cons, List.nodup_cons]
      refine ⟨?_, ih h.2⟩
      intro hc
      rcases mem_keys_addEntry rest k k₀ v hc with h' | h'
      · exact h.1 h'
      · exact hk h'

theorem countKey_eq_zero_of_not_mem (l : List (String × Value)) (k : String)
    (h : k ∉ l.map Prod.fst) : countKey l k = 0 := by
  induction l with
  | nil => rfl
  | cons p rest ih =>
    obtain ⟨k₀, v₀⟩ := p
    simp only [List.map_cons, List.mem_cons] at h
    push_neg at h
    have hne : (k₀ == k) = false := by
      simp [beq_iff_eq]
      exact fun hc => h.1 hc.symm
    simp only [countKey, List.filter_cons, hne]
    exact ih h.2

theorem countKey_addEntry (l : List (String × Value)) (k : String)
    (v : Value) (h : (l.map Prod.fst).Nodup) :
    countKey (addEntry l k v) k = 1 := by
  induction l with
  | nil => simp [addEntry, countKey]
  | cons p rest ih =>
    obtain ⟨k₀, v₀⟩ := p
    simp only [List.map_cons, List.nodup_cons] at h
    by_cases hk : k₀ = k
    · subst hk
      simp only [addEntry, if_pos rfl, countKey, List.filter_cons, beq_self_eq_true]
      have : countKey rest k₀ = 0 := countKey_eq_zero_of_not_mem rest k₀ h.1
      simp only [countKey] at this
      simp [this]
    · have hne : (k₀ == k) = false := by simp [beq_iff_eq, hk]
      simp only [addEntry, if_neg hk, countKey, List.filter_cons, hne]
      exact ih h.2

theorem addEntry_append_of_not_mem (l : List (String × Value)) (k : String)
    (v : Value) (h : k ∉ l.map Prod.fst) :
    addEntry l k v = l ++ [(k, v)] := by
  induction l with
  | nil => rfl
  | cons p rest ih =>
    obtain ⟨k₀, v₀⟩ := p
    simp only [List.map_cons, List.mem_cons] at h
    push_neg at h
    simp only [addEntry, if_neg (fun hc : k₀ = k => h.1 hc.symm),
      List.cons_append, List.cons.injEq, true_and]
    exact ih h.2

/-! Helper lemmas about the merge fold. -/

theorem foldl_add_of_disjoint (l : List (String × Value)) (acc : MetaData)
    (hnd : (l.map Prod.fst).Nodup)
    (hdisj : ∀ p ∈ l, p.1 ∉ acc.entries.map Prod.fst) :
    l.foldl (fun a p => a.add p.1 p.2) acc = ⟨acc.entries ++ l⟩ := by
  induction l generalizing acc with
  | nil => simp
  | cons p rest ih =>
    obtain ⟨k, v⟩ := p
    simp only [List.map_cons, List.nodup_cons] at hnd
    have hk : k ∉ acc.entries.map Prod.fst :=
      hdisj (k, v) (List.mem_cons_self _ _)
    have hacc : acc.add k v = ⟨acc.entries ++ [(k, v)]⟩ := by
      simp only [MetaData.add, addEntry_append_of_not_mem acc.entries k v hk]
    simp only [List.foldl_cons, hacc]
    rw [ih ⟨acc.entries ++ [(k, v)]⟩ hnd.2]
    · simp
    · intro q hq
      simp only [List.map_append, List.map_cons, List.map_nil,
        List.mem_append, List.mem_singleton]
      push_neg
      refine ⟨?_, ?_⟩
      · exact hdisj q (List.mem_cons_of_mem _ hq)
      · intro hc
        exact hnd.1 (hc ▸ List.mem_map_of_mem Prod.fst hq)

theorem merge_new_left (m : MetaData) (h : keysNodup m) :
    MetaData.merge MetaData.new m = m := by
  unfold MetaData.merge
  rw [foldl_add_of_disjoint m.entries MetaData.new h (by
    intro p _
    simp [MetaData.new])]
  simp [MetaData.new]

theorem get_foldl_of_getEntry_none (l : List (String × Value))
    (acc : MetaData) (k : String) (h : getEntry l k = none) :
    (l.foldl (fun a p => a.add p.1 p.2) acc).get k = acc.get k := by
  induction l generalizing acc with
  | nil => rfl
  | cons p rest ih =>
    obtain ⟨k₀, v₀⟩ := p
    simp only [getEntry] at h
    by_cases hk : k₀ = k
    · simp [hk] at h
    · simp only [if_neg hk] at h
      simp only [List.foldl_cons]
      rw [ih (acc.add k₀ v₀) h]
      simp only [MetaData.get, MetaData.add, getEntry_addEntry]
      rw [if_neg hk]

theorem get_foldl_of_getEntry_some (l : List (String × Value))
    (acc : MetaData) (k : String) (c : Value)
    (hnd : (l.map Prod.fst).Nodup) (h : getEntry l k = some c) :
    (l.foldl (fun a p => a.add p.1 p.2) acc).get k = some c := by
  induction l generalizing acc with
  | nil => simp [getEntry] at h
  | cons p rest ih =>
    obtain ⟨k₀, v₀⟩ := p
    simp only [List.map_cons, List.nodup_cons] at hnd
    simp only [getEntry] at h
    by_cases hk : k₀ = k
    · simp only [if_pos hk] at h
      have hrest : getEntry rest k = none :=
        getEntry_eq_none_of_not_mem rest k (hk ▸ hnd.1)
      simp only [List.foldl_cons]
      rw [get_foldl_of_getEntry_none rest (acc.add k₀ v₀) k hrest]
      simp only [MetaData.get, MetaData.add, getEntry_addEntry]
      rw [if_pos hk, h]
    · simp only [if_neg hk] at h
      simp only [List.foldl_cons]
      exact ih (acc.add k₀ v₀) hnd.2 h

theorem get_merge_some (m₁ m₂ : MetaData) (k : String) (c : Value)
    (hnd : keysNodup m₂) (h : m₂.get k = some c) :
    (m₁.merge m₂).get k = some c :=
  get_foldl_of_getEntry_some m₂.entries m₁ k c hnd h

theorem get_merge_none (m₁ m₂ : MetaData) (k : String)
    (h : m₂.get k = none) :
    (m₁.merge m₂).get k = m₁.get k :=
  get_foldl_of_getEntry_none m₂.entries m₁ k h

/-! Helper lemmas about the uuid rendering. -/

theorem hexVal_hexChar : ∀ n, n < 16 → hexVal (hexChar n) = n := by decide

theorem hexChar_ne_hyphen : ∀ n, n < 16 → hexChar n ≠ '-' := by decide

theorem toHexW_length (w : Nat) : ∀ n, (toHexW w n).length = w := by
  induction w with
  | zero => intro n; rfl
  | succ w ih =>
    intro n
    simp [toHexW, ih]

theorem ofHexDigits_append (l : List Char) (c : Char) :
    ofHexDigits (l ++ [c]) = ofHexDigits l * 16 + hexVal c := by
  simp [ofHexDigits, List.foldl_append]

theorem ofHexDigits_toHexW (w : Nat) : ∀ n, ofHexDigits (toHexW w n) = n % 16 ^ w := by
  induction w with
  | zero => intro n; simp [toHexW, ofHexDigits, Nat.mod_one]
  | succ w ih =>
    intro n
    rw [toHexW, ofHexDigits_append, ih,
      hexVal_hexChar _ (Nat.mod_lt _ (by norm_num)),
      pow_succ, mul_comm ((16 : Nat) ^ w) 16, Nat.mod_mul]
    ring

theorem mem_toHexW_ne_hyphen (w : Nat) :
    ∀ n c, c ∈ toHexW w n → c ≠ '-' := by
  induction w with
  | zero => intro n c hc; simp [toHexW] at hc
  | succ w ih =>
    intro n c hc
    simp only [toHexW, List.mem_append, List.mem_singleton] at hc
    rcases hc with hc | hc
    · exact ih _ c hc
    · exact hc ▸ hexChar_ne_hyphen _ (Nat.mod_lt _ (by norm_num))

theorem filter_hyphen_groups (d : List Char) (hall : ∀ c ∈ d, c ≠ '-') :
    (d.take 8 ++ '-' ::
      ((d.drop 8).take 4 ++ '-' ::
        (((d.drop 8).drop 4).take 4 ++ '-' ::
          ((((d.drop 8).drop 4).drop 4).take 4 ++ '-' ::
            (((d.drop 8).drop 4).drop 4).drop 4)))).filter
        (fun c => !(c == '-')) = d := by
  have hmem : ∀ l : List Char, (∀ c ∈ l, c ∈ d) →
      l.filter (fun c => !(c == '-')) = l := by
    intro l hl
    refine List.filter_eq_self.mpr ?_
    intro c hc
    simp [hall c (hl c hc)]
  have hcons : ∀ y : List Char,
      ('-' :: y).filter (fun c => !(c == '-')) = y.filter (fun c => !(c == '-')) := by
    intro y
    simp
  have h1 := hmem (d.take 8) (fun c hc => List.mem_of_mem_take hc)
  have h2 := hmem ((d.drop 8).take 4)
    (fun c hc => List.mem_of_mem_drop (List.mem_of_mem_take hc))
  have h3 := hmem (((d.drop 8).drop 4).take 4)
    (fun c hc => List.mem_of_mem_drop
      (List.mem_of_mem_drop (List.mem_of_mem_take hc)))
  have h4 := hmem ((((d.drop 8).drop 4).drop 4).take 4)
    (fun c hc => List.mem_of_mem_drop (List.mem_of_mem_drop
      (List.mem_of_mem_drop (List.mem_of_mem_take hc))))
  have h5 := hmem ((((d.drop 8).drop 4).drop 4).drop 4)
    (fun c hc => List.mem_of_mem_drop (List.mem_of_mem_drop
      (List.mem_of_mem_drop (List.mem_of_mem_drop hc))))
  rw [List.filter_append, h1, hcons,
    List.filter_append, h2, hcons,
    List.filter_append, h3, hcons,
    List.filter_append, h4, hcons, h5,
    List.take_append_drop, List.take_append_drop, List.take_append_drop,
    List.take_append_drop]

theorem filter_uuidChars (n : Nat) :
    (uuidChars n).filter (fun c => !(c == '-')) = toHexW 32 (n % 16 ^ 32) := by
  have hall : ∀ c ∈ toHexW 32 (n % 16 ^ 32), c ≠ '-' :=
    fun c hc => mem_toHexW_ne_hyphen 32 _ c hc
  exact filter_hyphen_groups (toHexW 32 (n % 16 ^ 32)) hall

theorem uuidChars_length (n : Nat) : (uuidChars n).length = 36 := by
  have hd : (toHexW 32 (n % 16 ^ 32)).length = 32 := toHexW_length 32 _
  simp only [uuidChars, List.length_append, List.length_cons, List.length_take,
    List.length_drop, hd]
  decide

theorem uuidString_length (n : Nat) : (uuidString n).length = 36 := by
  have : (uuidString n).data = uuidChars n := rfl
  simp [String.length, this, uuidChars_length]

theorem uuidString_ne_empty (n : Nat) : uuidString n ≠ "" := by
  intro h
  have := congrArg String.length h
  rw [uuidString_length] at this
  simp at this

theorem uuidString_injective (n₁ n₂ : Nat) (h₁ : n₁ < 16 ^ 32)
    (h₂ : n₂ < 16 ^ 32) (h : uuidString n₁ = uuidString n₂) : n₁ = n₂ := by
  have hc : uuidChars n₁ = uuidChars n₂ := congrArg String.data h
  have hf := congrArg (List.filter (fun c => !(c == '-'))) hc
  rw [filter_uuidChars, filter_uuidChars] at hf
  have hv := congrArg ofHexDigits hf
  rw [ofHexDigits_toHexW, ofHexDigits_toHexW,
    Nat.mod_mod_of_dvd n₁ (dvd_refl _), Nat.mod_mod_of_dvd n₂ (dvd_refl _),
    Nat.mod_eq_of_lt h₁, Nat.mod_eq_of_lt h₂] at hv
  exact hv

/-! Access lemmas for the two metadata derivations of an Entity. -/

theorem get_as_metadata_name (e : Entity) :
    e.as_metadata.get ENTITY_NAME_KEY = some (Value.str e.name) := by
  simp only [Entity.as_metadata, MetaData.get, MetaData.add]
  rw [getEntry_addEntry, if_pos rfl]

theorem get_as_metadata_correlation_none (e : Entity) :
    e.as_metadata.get CORRELATION_ID_KEY = none := by
  simp only [Entity.as_metadata, MetaData.get, MetaData.add, MetaData.new]
  rw [getEntry_addEntry, if_neg (by decide), getEntry_addEntry,
    if_neg (by decide)]
  rfl

theorem get_as_correlation_metadata_id (e : Entity) :
    e.as_correlation_metadata.get CORRELATION_ID_KEY = some (Value.str e.id) := by
  simp only [Entity.as_correlation_metadata, MetaData.get, MetaData.add]
  rw [getEntry_addEntry, if_neg (by decide), getEntry_addEntry, if_pos rfl]

/-! Theorems settling the claims. -/

/-- C1: for every event name `s` and value `v`, `EventMessage::new(s, v)`
yields a message whose identifier name is `s`, whose payload dereferences to
exactly `v`, whose metadata is seeded from the fresh identifier via
`as_metadata`, and whose metadata maps the well-known entity-name key to
`s`; `r` is the randomness drawn for the fresh uuid. -/
theorem C1_eventMessage_new_spec (r : Nat) (s : String) (v : Value) :
    (EventMessage.new r s v).identifier.name = s ∧
    (EventMessage.new r s v).payload.deref = v ∧
    (EventMessage.new r s v).metadata
      = (EventMessage.new r s v).identifier.as_metadata ∧
    (EventMessage.new r s v).metadata.get ENTITY_NAME_KEY
      = some (Value.str s) := by
  refine ⟨rfl, rfl, rfl, ?_⟩
  exact get_as_metadata_name (Entity.from_name r s)

/-- C2 counterexample: the claim that Display renders an Entity as the id,
a colon, then the name fails on the entity with id 123 and name SomeEvent,
which renders as SomeEvent:123. -/
theorem C2_display_counterexample :
    Entity.display (Entity.new "123" "SomeEvent")
      ≠ "123" ++ ":" ++ "SomeEvent" := by
  decide

/-- C2 amended: formatting an Entity via Display produces the name followed
by a colon followed by the id, as in the doc example rendering SomeEvent:123
for id 123 and name SomeEvent. -/
theorem C2_display_name_colon_id :
    (∀ i n : String, Entity.display (Entity.new i n) = n ++ ":" ++ i) ∧
    Entity.display (Entity.new "123" "SomeEvent") = "SomeEvent:123" := by
  exact ⟨fun i n => rfl, by decide⟩

/-- C6: `set_identifier` replaces exactly the identifier — metadata and
payload are those of the original message — and in particular the metadata
of a freshly built message still records the original event name after the
identity is replaced, demonstrating that it is not re-seeded. -/
theorem C6_set_identifier_frame (m : EventMessage) (e : Entity) :
    (m.set_identifier e).identifier = e ∧
    (m.set_identifier e).metadata = m.metadata ∧
    (m.set_identifier e).payload = m.payload ∧
    (∀ r s v, ((EventMessage.new r s v).set_identifier e).metadata.get
        ENTITY_NAME_KEY = some (Value.str s)) := by
  refine ⟨rfl, rfl, rfl, fun r s v => ?_⟩
  exact get_as_metadata_name (Entity.from_name r s)

/-- C9: the From String conversion for Entity delegates to from_name — the
given string becomes the name and the id is a freshly generated uuid; the
supplied string itself is never used as the id. -/
theorem C9_fromString_spec (r : Nat) (s : String) :
    Entity.fromString r s = Entity.from_name r s ∧
    (Entity.fromString r s).name = s ∧
    (Entity.fromString r s).id = uuidString r ∧
    (s ≠ uuidString r → (Entity.fromString r s).id ≠ s) :=
  ⟨rfl, rfl, rfl, fun h hc => h hc.symm⟩

/-- C9 witness: at randomness 0 and the concrete string OrderPlaced, the
conversion does not use the supplied string as the id. -/
theorem C9_fromString_witness :
    "OrderPlaced" ≠ uuidString 0 ∧
    (Entity.fromString 0 "OrderPlaced").id ≠ "OrderPlaced" :=
  ⟨by decide, (C9_fromString_spec 0 "OrderPlaced").2.2.2 (by decide)⟩

/-- C10: `add_meta` changes only the metadata field, which becomes the
original metadata with the entry inserted or overwritten; identifier and
payload are unchanged. -/
theorem C10_add_meta_frame (m : EventMessage) (k : String) (v : Value) :
    (m.add_meta k v).identifier = m.identifier ∧
    (m.add_meta k v).payload = m.payload ∧
    (m.add_meta k v).metadata = m.metadata.add k v ∧
    (∀ k₁, (m.add_meta k v).metadata.get k₁
      = if k = k₁ then some v else m.metadata.get k₁) := by
  refine ⟨rfl, rfl, rfl, fun k₁ => ?_⟩
  simp only [EventMessage.add_meta, MetaData.get, MetaData.add]
  exact getEntry_addEntry m.metadata.entries k k₁ v

/-- C3: the Origin provider returns a correlation id identical to the one
already present in the message metadata; when absent it derives the
correlation id deterministically from the message identity id; applied to a
freshly created EventMessage the resulting correlation id equals the
message's own entity id and is non-empty. -/
theorem C3_origin_correlation_spec :
    (∀ (m : EventMessage) (c : Value),
      m.metadata.get CORRELATION_ID_KEY = some c →
      (originCorrelationFor m).get CORRELATION_ID_KEY = some c) ∧
    (∀ m : EventMessage,
      m.metadata.get CORRELATION_ID_KEY = none →
      (originCorrelationFor m).get CORRELATION_ID_KEY
        = some (Value.str m.identifier.id)) ∧
    (∀ (r : Nat) (s : String) (v : Value),
      (originCorrelationFor (EventMessage.new r s v)).get CORRELATION_ID_KEY
        = some (Value.str (EventMessage.new r s v).identifier.id) ∧
      (EventMessage.new r s v).identifier.id ≠ "") := by
  refine ⟨?_, ?_, ?_⟩
  · intro m c h
    cases ht : m.metadata.get TRACE_ID_KEY with
    | some t =>
      unfold originCorrelationFor
      rw [h, ht]
      simp only [MetaData.get, MetaData.add]
      rw [getEntry_addEntry, if_neg (by decide), getEntry_addEntry, if_pos rfl]
    | none =>
      unfold originCorrelationFor
      rw [h, ht]
      simp only [MetaData.get, MetaData.add]
      rw [getEntry_addEntry, if_neg (by decide), getEntry_addEntry, if_pos rfl]
  · intro m h
    simp only [originCorrelationFor, h]
    exact get_as_correlation_metadata_id m.identifier
  · intro r s v
    have h0 : (EventMessage.new r s v).metadata.get CORRELATION_ID_KEY = none :=
      get_as_metadata_correlation_none (Entity.from_name r s)
    constructor
    · simp only [originCorrelationFor, h0]
      exact get_as_correlation_metadata_id _
    · exact uuidString_ne_empty r

/-- C3 witness: on a concrete message already carrying a correlation id, the
Origin provider returns that very value. -/
theorem C3_origin_correlation_witness :
    ((EventMessage.new 0 "OrderPlaced" (Value.str "p")).add_meta
        CORRELATION_ID_KEY (Value.str "c123")).metadata.get CORRELATION_ID_KEY
      = some (Value.str "c123") ∧
    (originCorrelationFor ((EventMessage.new 0 "OrderPlaced"
        (Value.str "p")).add_meta CORRELATION_ID_KEY (Value.str "c123"))).get
        CORRELATION_ID_KEY = some (Value.str "c123") :=
  ⟨rfl, C3_origin_correlation_spec.1
    ((EventMessage.new 0 "OrderPlaced" (Value.str "p")).add_meta
      CORRELATION_ID_KEY (Value.str "c123")) (Value.str "c123") rfl⟩

/-- C4: for providers p₁ and p₂ each producing well-formed metadata, the
Multi provider over the ordered sequence of the two equals the merge of
their outputs, and on the merge the later provider overrides the earlier one
on key collision while absent keys fall back to the earlier provider. -/
theorem C4_multi_correlation_spec (p₁ p₂ : EventMessage → MetaData)
    (m : EventMessage) (h₁ : keysNodup (p₁ m)) (h₂ : keysNodup (p₂ m)) :
    multiCorrelationFor [p₁, p₂] m = MetaData.merge (p₁ m) (p₂ m) ∧
    (∀ (k : String) (c : Value), (p₂ m).get k = some c →
      (multiCorrelationFor [p₁, p₂] m).get k = some c) ∧
    (∀ k : String, (p₂ m).get k = none →
      (multiCorrelationFor [p₁, p₂] m).get k = (p₁ m).get k) := by
  have hmulti : multiCorrelationFor [p₁, p₂] m
      = MetaData.merge (p₁ m) (p₂ m) := by
    simp only [multiCorrelationFor, List.foldl_cons, List.foldl_nil]
    rw [merge_new_left (p₁ m) h₁]
  refine ⟨hmulti, ?_, ?_⟩
  · intro k c hk
    rw [hmulti]
    exact get_merge_some _ _ k c h₂ hk
  · intro k hk
    rw [hmulti]
    exact get_merge_none _ _ k hk

/-- C4 witness: two concrete providers with a colliding correlation key,
where the Multi result is the merge and the later provider wins. -/
theorem C4_multi_correlation_witness :
    keysNodup ((fun _ : EventMessage =>
        MetaData.mk [("a", Value.str "x"),
          (CORRELATION_ID_KEY, Value.str "c1")]) (EventMessage.new 0 "E" Value.null)) ∧
    multiCorrelationFor
        [fun _ : EventMessage =>
          MetaData.mk [("a", Value.str "x"), (CORRELATION_ID_KEY, Value.str "c1")],
         fun _ : EventMessage =>
          MetaData.mk [(CORRELATION_ID_KEY, Value.str "c2")]]
        (EventMessage.new 0 "E" Value.null)
      = MetaData.merge
          (MetaData.mk [("a", Value.str "x"), (CORRELATION_ID_KEY, Value.str "c1")])
          (MetaData.mk [(CORRELATION_ID_KEY, Value.str "c2")]) :=
  ⟨by decide,
    (C4_multi_correlation_spec
      (fun _ : EventMessage =>
        MetaData.mk [("a", Value.str "x"), (CORRELATION_ID_KEY, Value.str "c1")])
      (fun _ : EventMessage =>
        MetaData.mk [(CORRELATION_ID_KEY, Value.str "c2")])
      (EventMessage.new 0 "E" Value.null) (by decide) (by decide)).1⟩

/-- C5: on well-formed metadata, adding a key twice leaves exactly one entry
for that key, holding the second value — overwrite semantics, never a
duplicate key — and the result is again well-formed; add is a total
function with no failure mode. -/
theorem C5_add_overwrite (m : MetaData) (k : String) (v v₂ : Value)
    (h : keysNodup m) :
    countKey ((m.add k v).add k v₂).entries k = 1 ∧
    ((m.add k v).add k v₂).get k = some v₂ ∧
    keysNodup ((m.add k v).add k v₂) := by
  have h1 : keysNodup (m.add k v) := keysNodup_addEntry m.entries k v h
  refine ⟨countKey_addEntry _ k v₂ h1, ?_, keysNodup_addEntry _ k v₂ h1⟩
  simp only [MetaData.get, MetaData.add]
  rw [getEntry_addEntry, if_pos rfl]

/-- C5 witness: a concrete well-formed map where the double add leaves one
entry holding the second value. -/
theorem C5_add_overwrite_witness :
    keysNodup (MetaData.mk [("x", Value.num 1)]) ∧
    countKey (((MetaData.mk [("x", Value.num 1)]).add "k" (Value.num 2)).add
        "k" (Value.num 3)).entries "k" = 1 :=
  ⟨by decide,
    (C5_add_overwrite (MetaData.mk [("x", Value.num 1)]) "k"
      (Value.num 2) (Value.num 3) (by decide)).1⟩

/-- C8: from_name returns the given name unchanged, and the generated id is
the 36-character canonical uuid rendering — non-empty, and distinct whenever
the 128-bit random draws are distinct. -/
theorem C8_from_name_spec (r r₂ : Nat) (s s₂ : String)
    (h : r < 16 ^ 32) (h₂ : r₂ < 16 ^ 32) :
    (Entity.from_name r s).name = s ∧
    (Entity.from_name r s).id = uuidString r ∧
    (Entity.from_name r s).id.length = 36 ∧
    (Entity.from_name r s).id ≠ "" ∧
    (r ≠ r₂ → (Entity.from_name r s).id ≠ (Entity.from_name r₂ s₂).id) := by
  refine ⟨rfl, rfl, uuidString_length r, uuidString_ne_empty r,
    fun hne hc => ?_⟩
  exact hne (uuidString_injective r r₂ h h₂ hc)

/-- C8 witness: two concrete distinct random draws below the 128-bit bound
give entities with distinct non-empty ids. -/
theorem C8_from_name_witness :
    (0 : Nat) < 16 ^ 32 ∧ (1 : Nat) < 16 ^ 32 ∧
    (Entity.from_name 0 "A").id ≠ (Entity.from_name 1 "B").id :=
  ⟨by norm_num, by norm_num,
    (C8_from_name_spec 0 1 "A" "B" (by norm_num) (by norm_num)).2.2.2.2
      (by decide)⟩

/-- C7: equality on Entity is componentwise equality of the pair of id and
name, and the derived ordering is a total order comparing the id first and
the name second, consistent with equality: it is reflexive, transitive,
antisymmetric and total, and its strict part is the order without
equality. -/
theorem C7_entity_total_order :
    (∀ a b : Entity, a = b ↔ a.id = b.id ∧ a.name = b.name) ∧
    (∀ a : Entity, Entity.le a a) ∧
    (∀ a b c : Entity, Entity.le a b → Entity.le b c → Entity.le a c) ∧
    (∀ a b : Entity, Entity.le a b → Entity.le b a → a = b) ∧
    (∀ a b : Entity, Entity.le a b ∨ Entity.le b a) ∧
    (∀ a b : Entity, Entity.lt a b ↔ Entity.le a b ∧ a ≠ b) := by
  have hext : ∀ a b : Entity, a.id = b.id → a.name = b.name → a = b := by
    intro a b h₁ h₂
    cases a
    cases b
    simp_all
  refine ⟨?_, ?_, ?_, ?_, ?_, ?_⟩
  · intro a b
    exact ⟨fun h => by rw [h]; exact ⟨rfl, rfl⟩, fun ⟨h₁, h₂⟩ => hext a b h₁ h₂⟩
  · intro a
    exact Or.inr ⟨rfl, le_refl _⟩
  · intro a b c hab hbc
    rcases hab with h₁ | ⟨e₁, n₁⟩
    · rcases hbc with h₂ | ⟨e₂, n₂⟩
      · exact Or.inl (lt_trans h₁ h₂)
      · exact Or.inl (lt_of_lt_of_eq h₁ e₂)
    · rcases hbc with h₂ | ⟨e₂, n₂⟩
      · exact Or.inl (lt_of_eq_of_lt e₁ h₂)
      · exact Or.inr ⟨e₁.trans e₂, le_trans n₁ n₂⟩
  · intro a b hab hba
    rcases hab with h₁ | ⟨e₁, n₁⟩
    · rcases hba with h₂ | ⟨e₂, n₂⟩
      · exact absurd h₂ (lt_asymm h₁)
      · exact absurd (lt_of_lt_of_eq h₁ e₂) (lt_irrefl _)
    · rcases hba with h₂ | ⟨e₂, n₂⟩
      · exact absurd (lt_of_lt_of_eq h₂ e₁) (lt_irrefl _)
      · exact hext a b e₁ (le_antisymm n₁ n₂)
  · intro a b
    rcases lt_trichotomy a.id b.id with h | h | h
    · exact Or.inl (Or.inl h)
    · rcases le_total a.name b.name with hn | hn
      · exact Or.inl (Or.inr ⟨h, hn⟩)
      · exact Or.inr (Or.inr ⟨h.symm, hn⟩)
    · exact Or.inr (Or.inl h)
  · intro a b
    constructor
    · intro hlt
      rcases hlt with h | ⟨e, n⟩
      · refine ⟨Or.inl h, fun hc => ?_⟩
        rw [hc] at h
        exact lt_irrefl _ h
      · refine ⟨Or.inr ⟨e, le_of_lt n⟩, fun hc => ?_⟩
        rw [hc] at n
        exact lt_irrefl _ n
    · intro ⟨hle, hne⟩
      rcases hle with h | ⟨e, n⟩
      · exact Or.inl h
      · refine Or.inr ⟨e, lt_of_le_of_ne n fun hc => ?_⟩
        exact hne (hext a b e hc)

/-- C7 witness: transitivity applied at three concrete entities ordered by
their ids. -/
theorem C7_entity_total_order_witness :
    Entity.le (Entity.new "a" "x") (Entity.new "b" "y") ∧
    Entity.le (Entity.new "b" "y") (Entity.new "c" "z") ∧
    Entity.le (Entity.new "a" "x") (Entity.new "c" "z") :=
  have hab : Entity.le (Entity.new "a" "x") (Entity.new "b" "y") :=
    Or.inl (String.lt_iff_toList_lt.mpr (by decide))
  have hbc : Entity.le (Entity.new "b" "y") (Entity.new "c" "z") :=
    Or.inl (String.lt_iff_toList_lt.mpr (by decide))
  ⟨hab, hbc,
    C7_entity_total_order.2.2.1 (Entity.new "a" "x") (Entity.new "b" "y")
      (Entity.new "c" "z") hab hbc⟩

end Axon
